import Mathlib

/-!
Shallow embedding of `models.py` from the repository
"Leveraging uncertainty information from deep neural networks for disease
detection" (a Lasagne/Theano model-definition script, Python 2).

The embedding models:
  * the ordered layer dictionary built by `JFnet.build_model`
    (`OrderedDict` becomes an association list `Net`, one entry per layer,
    in declaration order);
  * the layer-removal loop and re-heading performed by `BCNN.__init__`;
  * the weight (de)serialization utilities `save_weights` / `load_weights`
    (the filesystem becomes an association list from filenames to file
    contents; a numpy array becomes a list of rationals);
  * `Model.mc_samples` (the compiled stochastic forward pass — a theano
    function compiled with `deterministic=False`, i.e. dropout active — is
    an oracle `ℕ → Mat` giving the output of the t-th call; numpy array
    construction and slice assignment are modelled on nested lists).

Python exceptions are modelled by `Except PyError`.
-/

namespace DiseaseDetect

/-- A numpy parameter array (flattened to its list of entries). -/
abbrev Arr := List ℚ

/-- A 2-d numpy array. -/
abbrev Mat := List (List ℚ)

/-- A 3-d numpy array, indexed `[sample][output][t]`. -/
abbrev Mat3 := List (List (List ℚ))

/-- The Python exceptions the modelled code can raise. -/
inductive PyError where
  | typeError
  | indexError
  | keyError
  | valueError
  | ioError
  | notImplementedError
  | assertionError
deriving DecidableEq

/-- Nonlinearities used in `models.py` (`softmax`, `LeakyRectify(l)`,
`nonlinearity=None`). -/
inductive Nonlin where
  | softmax
  | leakyRectify (leakiness : ℚ)
  | none
deriving DecidableEq

/-- Pool functions passed to `GlobalPoolLayer` (`T.mean` / `T.max`). -/
inductive PoolFn where
  | mean
  | max
deriving DecidableEq

/-- Weight initialisation: `W=Orthogonal(gain), b=Constant(bConst)`, or the
lasagne defaults when the call site passes none. -/
inductive InitSpec where
  | orthogonal (gain bConst : ℚ)
  | defaultInit
deriving DecidableEq

/-- An incoming-layer reference at a construction site: either `net[k]`
(a dictionary lookup), or one of the two anonymous
`GlobalPoolLayer(network[k], fn)` objects built inside `BCNN.__init__`
(which never enter the dictionary themselves). -/
inductive LayerRef where
  | key (k : String)
  | globalPool (fn : PoolFn) (inputKey : String)
deriving DecidableEq

/-- One lasagne layer, with the hyperparameters that appear literally at its
construction site in `models.py`. -/
inductive Layer where
  | inputLayer (batchSize : Option ℕ) (dims : List ℕ) (name : String)
  | conv (input : LayerRef) (numFilters filterSize : ℕ) (stride : ℕ × ℕ)
      (pad : String) (untieBiases : Bool) (nonlin : Nonlin) (init : InitSpec)
  | dropout (input : LayerRef) (p : ℚ)
  | maxPool (input : LayerRef) (poolSize : ℕ) (stride : ℕ × ℕ)
      (name : Option String)
  | dense (input : LayerRef) (numUnits : ℕ) (nonlin : Nonlin)
      (init : InitSpec) (name : Option String)
  | featurePool (input : LayerRef) (poolSize : ℕ)
  | concat (inputs : List LayerRef) (axis : ℕ)
  | reshape (input : LayerRef) (shape : ℤ × ℤ)
  | nonlinearity (input : LayerRef) (nonlin : Nonlin)
deriving DecidableEq

/-- The `OrderedDict` of layers: an association list in insertion order. -/
abbrev Net := List (String × Layer)

/-- The key list `net.keys()` of the ordered dictionary. -/
def keys (net : Net) : List String := net.map Prod.fst

/-- The incoming-layer references a layer was constructed with. -/
def Layer.inputRefs : Layer → List LayerRef
  | .inputLayer .. => []
  | .conv r .. => [r]
  | .dropout r _ => [r]
  | .maxPool r .. => [r]
  | .dense r .. => [r]
  | .featurePool r _ => [r]
  | .concat rs _ => rs
  | .reshape r _ => [r]
  | .nonlinearity r _ => [r]

/-- Second component (`output_shape[1]`) of a referenced layer, given the
dimensions already computed for the dictionary entries. -/
def refDim (env : List (String × ℕ)) : LayerRef → Option ℕ
  | .key k => env.lookup k
  | .globalPool _ k => env.lookup k

/-- The value `output_shape[1]` of a single layer (lasagne's shape inference,
restricted to the second dimension, for the layer kinds used here). -/
def layerDim1 (env : List (String × ℕ)) : Layer → Option ℕ
  | .inputLayer _ dims _ => dims.head?
  | .conv _ nf _ _ _ _ _ _ => some nf
  | .dropout r _ => refDim env r
  | .maxPool r _ _ _ => refDim env r
  | .dense _ u _ _ _ => some u
  | .featurePool r k => (refDim env r).map (· / k)
  | .concat rs ax =>
      if ax = 1 then (rs.mapM (refDim env)).map List.sum
      else rs.head? >>= refDim env
  | .reshape _ s => some s.2.toNat
  | .nonlinearity r _ => refDim env r

/-- The value `output_shape[1]` for every entry of the dictionary, computed in
insertion order (each layer only references earlier entries). -/
def netDims (net : Net) : List (String × ℕ) :=
  net.foldl
    (fun env kv =>
      match layerDim1 env kv.2 with
      | some d => env ++ [(kv.1, d)]
      | Option.none => env)
    []

/-- The value `self.net.values()[-1].output_shape[1]`: the second output dimension of
the final layer of the dictionary. -/
def outputDim1 (net : Net) : Option ℕ :=
  match net.getLast? with
  | some kv => (netDims net).lookup kv.1
  | Option.none => Option.none

/-- The nonlinearity `LeakyRectify(leakiness=0.5)`, used by every conv layer. -/
def leaky : Nonlin := .leakyRectify (1/2)

/-- The initialisation `W=lasagne.init.Orthogonal(1.0), b=lasagne.init.Constant(0.1)`. -/
def orth : InitSpec := .orthogonal 1 (1/10)

/-- The constant `JFnet.ORIGINAL_WEIGHTS`. -/
def ORIGINAL_WEIGHTS : String :=
  "models/jeffrey_df/2015_07_17_123003_PARAMSDUMP.pkl"

/-- The function `JFnet.build_model(width, height, filename, n_classes, batch_size,
p_conv)`: the ordered layer dictionary, entry by entry in the order of the
assignments in the source.  The optional `filename` only triggers
`set_all_param_values` on the already-built graph (a weight side effect
modelled separately by the serialization functions below); it does not
change the structure, so it is carried but unused here. -/
def build_model (width height : ℕ) (filename : Option String) (n_classes : ℕ)
    (batch_size : Option ℕ) (p_conv : ℚ) : Net :=
  let _ := filename
  let net23 : Net := [
    ("0", .inputLayer batch_size [3, width, height] "images"),
    ("1", .conv (.key "0") 32 7 (2, 2) "same" true leaky orth),
    ("1d", .dropout (.key "1") p_conv),
    ("2", .maxPool (.key "1d") 3 (2, 2) Option.none),
    ("3", .conv (.key "2") 32 3 (1, 1) "same" true leaky orth),
    ("3d", .dropout (.key "3") p_conv),
    ("4", .conv (.key "3d") 32 3 (1, 1) "same" true leaky orth),
    ("4d", .dropout (.key "4") p_conv),
    ("5", .maxPool (.key "4d") 3 (2, 2) Option.none),
    ("6", .conv (.key "5") 64 3 (1, 1) "same" true leaky orth),
    ("6d", .dropout (.key "6") p_conv),
    ("7", .conv (.key "6d") 64 3 (1, 1) "same" true leaky orth),
    ("7d", .dropout (.key "7") p_conv),
    ("8", .maxPool (.key "7d") 3 (2, 2) Option.none),
    ("9", .conv (.key "8") 128 3 (1, 1) "same" true leaky orth),
    ("9d", .dropout (.key "9") p_conv),
    ("10", .conv (.key "9d") 128 3 (1, 1) "same" true leaky orth),
    ("10d", .dropout (.key "10") p_conv),
    ("11", .conv (.key "10d") 128 3 (1, 1) "same" true leaky orth),
    ("11d", .dropout (.key "11") p_conv),
    ("12", .conv (.key "11d") 128 3 (1, 1) "same" true leaky orth),
    ("12d", .dropout (.key "12") p_conv),
    ("13", .maxPool (.key "12d") 3 (2, 2) Option.none),
    ("14", .conv (.key "13") 256 3 (1, 1) "same" true leaky orth),
    ("14d", .dropout (.key "14") p_conv),
    ("15", .conv (.key "14d") 256 3 (1, 1) "same" true leaky orth),
    ("15d", .dropout (.key "15") p_conv),
    ("16", .conv (.key "15") 256 3 (1, 1) "same" true leaky orth),
    ("16d", .dropout (.key "16") p_conv),
    ("17", .conv (.key "16d") 256 3 (1, 1) "same" true leaky orth),
    ("17d", .dropout (.key "17") p_conv),
    ("18", .maxPool (.key "17d") 3 (2, 2) (some "coarse_last_pool")),
    ("19", .dropout (.key "18") (1/2)),
    ("20", .dense (.key "19") 1024 .none orth (some "first_fc_0")),
    ("21", .featurePool (.key "20") 2),
    ("22", .inputLayer batch_size [2] "imgdim"),
    ("23", .concat [.key "21", .key "22"] 1)
  ]
  let d23 : ℕ := ((netDims net23).lookup "23").getD 0
  net23 ++ [
    ("24", .reshape (.key "23") (-1, (d23 * 2 : ℤ))),
    ("25", .dropout (.key "24") (1/2)),
    ("26", .dense (.key "25") 1024 .none orth (some "combine_repr_fc")),
    ("27", .featurePool (.key "26") 2),
    ("28", .dropout (.key "27") (1/2)),
    ("29", .dense (.key "28") (n_classes * 2) .none orth Option.none),
    ("30", .reshape (.key "29") (-1, (n_classes : ℤ))),
    ("31", .nonlinearity (.key "30") .softmax)
  ]

/-- The 45 layer keys of `JFnet.build_model`, in declaration order. -/
def jfnetKeys : List String :=
  ["0", "1", "1d", "2", "3", "3d", "4", "4d", "5", "6", "6d", "7", "7d",
   "8", "9", "9d", "10", "10d", "11", "11d", "12", "12d", "13", "14", "14d",
   "15", "15d", "16", "16d", "17", "17d", "18", "19", "20", "21", "22",
   "23", "24", "25", "26", "27", "28", "29", "30", "31"]

/-- The loop
`while not network.keys()[-1] == last_layer: network.popitem(last=True)`
of `BCNN.__init__` (and of `weights2pickle`), acting on the reversed
dictionary: the head of `rnet` is the last entry of the dictionary.  Each
round first evaluates the condition — `network.keys()[-1]` raises
`IndexError` on an empty Python 2 list — and otherwise pops the last item. -/
def truncateRev (rnet : Net) (lastLayer : String) : Except PyError Net :=
  match rnet with
  | [] => .error .indexError
  | kv :: rest =>
      if kv.1 = lastLayer then .ok (kv :: rest)
      else truncateRev rest lastLayer

/-- The same loop on the dictionary in insertion order. -/
def truncateLoop (net : Net) (lastLayer : String) : Except PyError Net :=
  (truncateRev net.reverse lastLayer).map List.reverse

/-- The `OrderedDict` item assignment `net[k] = v`: overwrite in place if the key
is present, append otherwise. -/
def odSet (net : Net) (k : String) (v : Layer) : Net :=
  if net.any (fun kv => kv.1 = k) then
    net.map (fun kv => if kv.1 = k then (k, v) else kv)
  else net ++ [(k, v)]

/-- The constructor `BCNN.__init__(p_conv, last_layer, weights, n_classes)`: build the JFnet
graph (width=512, height=512, `ORIGINAL_WEIGHTS`), pop layers from the end
until `last_layer` is last, then add `global_pool` (a concat of an anonymous
mean- and an anonymous max-`GlobalPoolLayer` over `network[last_layer]`),
`softmax_input` and `logreg`.  The optional weight file only sets parameter
values on the finished graph (modelled by `load_weights` below); it leaves
the structure unchanged, so it is carried but unused here. -/
def BCNN_init (p_conv : ℚ) (last_layer : String) (weights : Option String)
    (n_classes : ℕ) : Except PyError Net :=
  let _ := weights
  let network := build_model 512 512 (some ORIGINAL_WEIGHTS) 5 Option.none p_conv
  match truncateLoop network last_layer with
  | .error e => .error e
  | .ok net =>
      let net := odSet net "global_pool"
        (.concat [.globalPool .mean last_layer, .globalPool .max last_layer] 1)
      let net := odSet net "softmax_input"
        (.dense (.key "global_pool") n_classes .none .defaultInit Option.none)
      let net := odSet net "logreg"
        (.nonlinearity (.key "softmax_input") .softmax)
      .ok net

/-- The function `weights2pickle(name, output_layer)`: assert the model name, pick the
weight file and output filename, build `BCNN(p_conv=0.2, last_layer='17')`,
assert `output_layer` is one of its keys, pop layers until `output_layer`
is last, and dump the model.  The returned pair is the written pickle:
(output filename, truncated layer dictionary). -/
def weights2pickle (name : String) (output_layer : String) :
    Except PyError (String × Net) :=
  if name = "bcnn1" ∨ name = "bcnn2" then
    let weights : String :=
      if name = "bcnn1" then "models/weights_bcnn1_392bea6.npz"
      else "models/weights_bcnn2_b69aadd.npz"
    let outfile : String :=
      if name = "bcnn1" then "bcnn1_392bea6_" ++ output_layer ++ ".pkl"
      else "bcnn2_b69aadd_" ++ output_layer ++ ".pkl"
    match BCNN_init (1/5) "17" (some weights) 2 with
    | .error e => .error e
    | .ok net =>
        if output_layer ∈ keys net then
          match truncateLoop net output_layer with
          | .error e => .error e
          | .ok net2 => .ok (outfile, net2)
        else .error .assertionError
  else .error .assertionError

/-- Python's `str.endswith(suffix)`: the characters of `suffix` are a suffix
of the characters of `s`. -/
def endsWith (s suffix : String) : Bool :=
  suffix.data.isSuffixOf s.data

/-- The contents of a weight file: either a compressed numpy archive written
by `np.savez_compressed(filename, *param_values)` (its members are named
`arr_0 … arr_{n-1}`, kept here positionally), or a pickled dictionary such
as `{'param values': …}`. -/
inductive FileContent where
  | npz (arrs : List Arr)
  | pkl (entries : List (String × List Arr))
deriving DecidableEq

/-- The filesystem: filename to content, most recent write first. -/
abbrev FileSys := List (String × FileContent)

/-- The function `lasagne.layers.set_all_param_values(layer, values)`: the layer graph
below `layer` has `nParams` parameter tensors; lasagne raises `ValueError`
unless exactly that many values are given, and otherwise stores them. -/
def set_all_param_values (nParams : ℕ) (values : List Arr) :
    Except PyError (List Arr) :=
  if values.length = nParams then .ok values else .error .valueError

/-- The function `load_weights(layer, filename)`.  The layer is represented by the number
`nParams` of parameter tensors below it; the result is the list of parameter
values the call stores.  `.npz`: open the archive and read
`f['arr_%d' % i]` for `i in range(len(f.files))` in index order.  `.pkl`:
unpickle and take the `'param values'` entry.  Any other ending raises
`NotImplementedError`.  A missing file (or a file whose content does not
parse as the expected format) is an environment error, `ioError`. -/
def load_weights (nParams : ℕ) (fs : FileSys) (filename : String) :
    Except PyError (List Arr) :=
  if endsWith filename ".npz" then
    match fs.lookup filename with
    | some (.npz arrs) =>
        let param_values := (List.range arrs.length).map (fun i => arrs.getD i [])
        set_all_param_values nParams param_values
    | some (.pkl _) => .error .ioError
    | Option.none => .error .ioError
  else if endsWith filename ".pkl" then
    match fs.lookup filename with
    | some (.pkl entries) =>
        match entries.lookup "param values" with
        | some pv => set_all_param_values nParams pv
        | Option.none => .error .keyError
    | some (.npz _) => .error .ioError
    | Option.none => .error .ioError
  else .error .notImplementedError

/-- The function `save_weights(layer, filename)`.  Here `params` is
`lasagne.layers.get_all_param_values(layer)`, the current parameter values
of the graph below `layer`.  Only the `.npz` format is implemented:
`np.savez_compressed(filename, *params)`.  The result is the written file. -/
def save_weights (params : List Arr) (filename : String) :
    Except PyError (String × FileContent) :=
  if endsWith filename ".npz" then .ok (filename, .npz params)
  else .error .notImplementedError

/-- The zero array `np.zeros((n, m, T))`. -/
def zeros3 (n m T : ℕ) : Mat3 :=
  List.replicate n (List.replicate m (List.replicate T (0 : ℚ)))

/-- The numpy slice assignment `a[:, :, t] = v` for a 3-d array `a` of shape
`(n, m, T)` and a 2-d value `v` of shape `(n, m)`. -/
def setSlice (a : Mat3) (v : Mat) (t : ℕ) : Mat3 :=
  List.zipWith
    (fun arow vrow => List.zipWith (fun cell x => cell.set t x) arow vrow)
    a v

/-- The sampling loop
`for t in range(T): mc_samples[:, :, t] = self._predict_stoch(*inputs)`.
`f t` is the output of the t-th call of the compiled stochastic function. -/
def runLoop (f : ℕ → Mat) (a : Mat3) (T : ℕ) : Mat3 :=
  (List.range T).foldl (fun acc t => setSlice acc (f t) t) a

/-- The method `Model.mc_samples(*inputs, **kwargs)`.  Here `predict_stoch` is the oracle
for the theano function compiled from the final layer with
`deterministic=False` (dropout active): `predict_stoch t` is the output of
its t-th call.  Steps, in source order: pop `'T'` from the kwargs (default
100) and raise `TypeError` on leftover kwargs; compile the stochastic
function from `self.net.values()[-1]` (`IndexError` on an empty dict);
`n_samples = len(inputs[0])` (`IndexError` without positional inputs);
`n_out = self.net.values()[-1].output_shape[1]` (`keyError` marks the
un-Python-representable case of a dangling layer reference); then fill a
zero array of shape `(n_samples, n_out, T)` slice by slice. -/
def mc_samples (net : Net) (predict_stoch : ℕ → Mat) (inputs : List Mat)
    (kwargs : List (String × ℕ)) : Except PyError Mat3 :=
  let T := (kwargs.lookup "T").getD 100
  let rest := kwargs.filter (fun kv => ¬ kv.1 = "T")
  if rest.isEmpty then
    match net.getLast? with
    | Option.none => .error .indexError
    | some _ =>
        match inputs with
        | [] => .error .indexError
        | x :: _ =>
            match outputDim1 net with
            | Option.none => .error .keyError
            | some n_out =>
                .ok (runLoop predict_stoch (zeros3 x.length n_out T) T)
  else .error .typeError

/-- The method `Model.get_output_layer`: `self.net.values()[-1]`, together with its
key. -/
def get_output_layer (net : Net) : Option (String × Layer) := net.getLast?

instance {ε α : Type} [DecidableEq ε] [DecidableEq α] :
    DecidableEq (Except ε α) := fun x y =>
  match x, y with
  | .ok a, .ok b =>
      if h : a = b then isTrue (by rw [h])
      else isFalse (fun hh => h (Except.ok.inj hh))
  | .error a, .error b =>
      if h : a = b then isTrue (by rw [h])
      else isFalse (fun hh => h (Except.error.inj hh))
  | .ok _, .error _ => isFalse (fun hh => Except.noConfusion hh)
  | .error _, .ok _ => isFalse (fun hh => Except.noConfusion hh)

/-- The key declared immediately before `k` in the key list `ks`. -/
def prevKey (ks : List String) (k : String) : Option String :=
  ((ks.zip ks.tail).find? (fun ab => ab.2 = k)).map Prod.fst

/-- The layer stored under `k` was constructed with exactly one incoming
reference, namely the dictionary entry declared immediately before `k`. -/
def sequentialAt (net : Net) (k : String) : Bool :=
  match prevKey (keys net) k, net.lookup k with
  | some pk, some l => l.inputRefs = [LayerRef.key pk]
  | _, _ => false

/-- A 2-d array has shape `(n, m)`. -/
def MatShape (v : Mat) (n m : ℕ) : Prop :=
  v.length = n ∧ ∀ i, i < n → (v.getD i []).length = m

/-- A 3-d array has shape `(n, m, T)`. -/
def ShapeOK (a : Mat3) (n m T : ℕ) : Prop :=
  a.length = n ∧ (∀ i, i < n → (a.getD i []).length = m) ∧
    ∀ i j, i < n → j < m → ((a.getD i []).getD j []).length = T

/-- The layer dictionary of `BCNN(p_conv=0.2, last_layer='17')`, the model
constructed inside `weights2pickle` (its structure does not depend on the
weight file). -/
def bcnn17Net : Net := (BCNN_init (1/5) "17" Option.none 2).toOption.getD []

/-- The 33 layer keys of `BCNN(p_conv=0.2, last_layer='17')`. -/
def bcnn17Keys : List String :=
  ["0", "1", "1d", "2", "3", "3d", "4", "4d", "5", "6", "6d", "7", "7d",
   "8", "9", "9d", "10", "10d", "11", "11d", "12", "12d", "13", "14", "14d",
   "15", "15d", "16", "16d", "17", "global_pool", "softmax_input", "logreg"]

theorem keys_build_model (w h : ℕ) (fn : Option String) (nc : ℕ)
    (bs : Option ℕ) (p : ℚ) : keys (build_model w h fn nc bs p) = jfnetKeys :=
  rfl

theorem truncateRev_app (dropped : Net) (kv : String × Layer) (rest : Net)
    (k : String) (hd : ∀ e ∈ dropped, e.1 ≠ k) (hk : kv.1 = k) :
    truncateRev (dropped ++ kv :: rest) k = .ok (kv :: rest) := by
  induction dropped with
  | nil => simp [truncateRev, hk]
  | cons d ds ih =>
      have hd1 : d.1 ≠ k := hd d (by simp)
      simp only [List.cons_append, truncateRev, if_neg hd1]
      exact ih (fun e he => hd e (by simp [he]))

theorem truncateRev_none (r : Net) (k : String) (h : ∀ e ∈ r, e.1 ≠ k) :
    truncateRev r k = .error .indexError := by
  induction r with
  | nil => rfl
  | cons d ds ih =>
      have hd1 : d.1 ≠ k := h d (by simp)
      simp only [truncateRev, if_neg hd1]
      exact ih (fun e he => h e (by simp [he]))

theorem truncateRev_ok (r r' : Net) (k : String)
    (h : truncateRev r k = .ok r') :
    ∃ dropped, r = dropped ++ r' ∧ (∀ e ∈ dropped, e.1 ≠ k) ∧
      ∃ kv rest, r' = kv :: rest ∧ kv.1 = k := by
  induction r generalizing r' with
  | nil => simp [truncateRev] at h
  | cons d ds ih =>
      by_cases hd : d.1 = k
      · simp only [truncateRev, if_pos hd, Except.ok.injEq] at h
        exact ⟨[], by simp [h], by simp, d, ds, h.symm, hd⟩
      · simp only [truncateRev, if_neg hd] at h
        obtain ⟨dr, hdr, hne, hrest⟩ := ih _ h
        refine ⟨d :: dr, by simp [hdr], ?_, hrest⟩
        intro e he
        rcases List.mem_cons.mp he with he1 | he2
        · exact he1 ▸ hd
        · exact hne e he2

theorem mem_split_first (r : Net) (k : String) (h : k ∈ keys r) :
    ∃ dropped kv rest, r = dropped ++ kv :: rest ∧ kv.1 = k ∧
      ∀ e ∈ dropped, e.1 ≠ k := by
  induction r with
  | nil => simp [keys] at h
  | cons d ds ih =>
      by_cases hd : d.1 = k
      · exact ⟨[], d, ds, rfl, hd, by simp⟩
      · have h' : k ∈ keys ds := by
          rw [show keys (d :: ds) = d.1 :: keys ds from rfl] at h
          rcases List.mem_cons.mp h with h1 | h2
          · exact absurd h1.symm hd
          · exact h2
        obtain ⟨dr, kv, rest, hr, hkv, hne⟩ := ih h'
        refine ⟨d :: dr, kv, rest, by simp [hr], hkv, ?_⟩
        intro e he
        rcases List.mem_cons.mp he with he1 | he2
        · exact he1 ▸ hd
        · exact hne e he2

theorem truncateLoop_ok_iff (net : Net) (k : String) :
    (∃ net', truncateLoop net k = .ok net') ↔ k ∈ keys net := by
  constructor
  · rintro ⟨net', h⟩
    unfold truncateLoop at h
    cases hr : truncateRev net.reverse k with
    | error e => rw [hr] at h; simp [Except.map] at h
    | ok r'' =>
        obtain ⟨dr, hdr, hne, kv, rest, hr', hkv⟩ := truncateRev_ok _ _ _ hr
        have hmem : kv ∈ net.reverse := by
          rw [hdr, hr']; exact List.mem_append_right _ (List.mem_cons_self _ _)
        exact hkv ▸ List.mem_map_of_mem Prod.fst (List.mem_reverse.mp hmem)
  · intro h
    have h' : k ∈ keys net.reverse := by
      simpa [keys, List.map_reverse, List.mem_reverse] using h
    obtain ⟨dr, kv, rest, hsplit, hkv, hne⟩ := mem_split_first _ _ h'
    refine ⟨(kv :: rest).reverse, ?_⟩
    unfold truncateLoop
    rw [hsplit, truncateRev_app dr kv rest k hne hkv]
    rfl

theorem truncateLoop_not_mem (net : Net) (k : String) (h : k ∉ keys net) :
    truncateLoop net k = .error .indexError := by
  unfold truncateLoop
  rw [truncateRev_none]
  · rfl
  · intro e he hek
    exact h (hek ▸ List.mem_map_of_mem Prod.fst (List.mem_reverse.mp he))

theorem truncateLoop_ok_last (net net' : Net) (k : String)
    (h : truncateLoop net k = .ok net') : (keys net').getLast? = some k := by
  unfold truncateLoop at h
  cases hr : truncateRev net.reverse k with
  | error e => rw [hr] at h; simp [Except.map] at h
  | ok r'' =>
      rw [hr] at h
      simp only [Except.map, Except.ok.injEq] at h
      obtain ⟨dr, hdr, hne, kv, rest, hr', hkv⟩ := truncateRev_ok _ _ _ hr
      subst h
      rw [hr']
      simp [keys, hkv]

theorem truncateLoop_eq (pre' : Net) (kv : String × Layer) (post : Net)
    (k : String) (hkv : kv.1 = k) (hpost : ∀ e ∈ post, e.1 ≠ k) :
    truncateLoop ((pre' ++ [kv]) ++ post) k = .ok (pre' ++ [kv]) := by
  unfold truncateLoop
  have hrev : ((pre' ++ [kv]) ++ post).reverse =
      post.reverse ++ kv :: pre'.reverse := by simp
  rw [hrev,
    truncateRev_app _ _ _ _ (fun e he => hpost e (List.mem_reverse.mp he)) hkv]
  simp [Except.map]

theorem mem_split_last (net : Net) (k : String) (h : k ∈ keys net) :
    ∃ pre' kv post, net = (pre' ++ [kv]) ++ post ∧ kv.1 = k ∧
      ∀ e ∈ post, e.1 ≠ k := by
  have h' : k ∈ keys net.reverse := by
    simpa [keys, List.map_reverse, List.mem_reverse] using h
  obtain ⟨dr, kv, rest, hsplit, hkv, hne⟩ := mem_split_first _ _ h'
  refine ⟨rest.reverse, kv, dr.reverse, ?_, hkv, ?_⟩
  · have := congrArg List.reverse hsplit
    simpa using this
  · intro e he
    exact hne e (List.mem_reverse.mp he)

theorem odSet_append (net : Net) (k : String) (v : Layer)
    (h : k ∉ keys net) : odSet net k v = net ++ [(k, v)] := by
  unfold odSet
  rw [if_neg]
  simp only [List.any_eq_true, decide_eq_true_eq, not_exists]
  intro e he
  exact h (he.2 ▸ List.mem_map_of_mem Prod.fst he.1)

theorem bcnn17_ok (w : Option String) :
    BCNN_init (1/5) "17" w 2 = .ok bcnn17Net := rfl

theorem bcnn17_keys : keys bcnn17Net = bcnn17Keys := rfl

/-- C7: `JFnet.build_model` returns a dictionary with the same fixed list of
45 keys — `'0'` … `'31'` interleaved with the thirteen dropout keys — in the
same fixed order, for every choice of the `width`, `height`, `filename`,
`n_classes`, `batch_size` and `p_conv` arguments. -/
theorem build_model_fixed_keys (w h : ℕ) (fn : Option String) (nc : ℕ)
    (bs : Option ℕ) (p : ℚ) :
    keys (build_model w h fn nc bs p) = jfnetKeys ∧ jfnetKeys.length = 45 :=
  ⟨keys_build_model w h fn nc bs p, rfl⟩

/-- C9 (amended): the layer-removal loop of `BCNN.__init__` completes
normally if and only if `last_layer` is one of the keys of the network
returned by `JFnet.build_model`; if it is not, the loop empties the
`OrderedDict` and then raises `IndexError` when the loop condition evaluates
`network.keys()[-1]` on the empty dictionary (no `popitem` is attempted on
the empty dictionary, so no `KeyError` is raised). -/
theorem truncate_loop_member_spec (w h : ℕ) (fn : Option String) (nc : ℕ)
    (bs : Option ℕ) (p : ℚ) (k : String) :
    ((∃ net', truncateLoop (build_model w h fn nc bs p) k = .ok net') ↔
      k ∈ keys (build_model w h fn nc bs p)) ∧
    (k ∉ keys (build_model w h fn nc bs p) →
      truncateLoop (build_model w h fn nc bs p) k = .error .indexError) :=
  ⟨truncateLoop_ok_iff _ _, truncateLoop_not_mem _ _⟩

theorem truncate_loop_member_spec_witness :
    truncateLoop (build_model 512 512 (some ORIGINAL_WEIGHTS) 5 Option.none
      (1/5)) "softmax_input" = .error .indexError :=
  (truncate_loop_member_spec 512 512 (some ORIGINAL_WEIGHTS) 5 Option.none
    (1/5) "softmax_input").2 (by decide)

/-- C9 (counterexample to the claim as stated): for
`last_layer = 'global_pool'`, which is not a `JFnet.build_model` key, the
loop raises `IndexError` — not the `KeyError` from a further `popitem` that
the claim predicts. -/
theorem truncate_missing_key_counterexample :
    truncateLoop (build_model 512 512 (some ORIGINAL_WEIGHTS) 5 Option.none
      (1/5)) "global_pool" = .error .indexError ∧
    ¬ truncateLoop (build_model 512 512 (some ORIGINAL_WEIGHTS) 5 Option.none
      (1/5)) "global_pool" = .error .keyError := by
  decide

/-- C1: the network is *not* assembled by purely sequential composition:
layer `'16'` is constructed from `net['15']`, bypassing the dropout layer
`'15d'` declared immediately before it (which is therefore dead), while
every other declared layer except the InputLayers `'0'`, `'22'` and the
ConcatLayer `'23'` does receive the layer declared immediately before it.
The docstring says `p_conv` is "dropout applied to conv. layers", so the
dead `'15d'` contradicts the code's own documentation. -/
theorem jfnet_layer16_input_bug :
    sequentialAt (build_model 512 512 (some ORIGINAL_WEIGHTS) 5 Option.none
      (1/5)) "16" = false ∧
    (build_model 512 512 (some ORIGINAL_WEIGHTS) 5 Option.none
      (1/5)).lookup "16" =
      some (.conv (.key "15") 256 3 (1, 1) "same" true leaky orth) ∧
    prevKey jfnetKeys "16" = some "15d" ∧
    (jfnetKeys.filter
      (fun k => k ∉ (["0", "22", "23", "16"] : List String))).all
      (fun k => sequentialAt (build_model 512 512 (some ORIGINAL_WEIGHTS) 5
        Option.none (1/5)) k) = true := by
  refine ⟨by decide, rfl, by decide, by decide⟩

theorem jfnet_keys_fresh :
    ∀ s ∈ jfnetKeys,
      s ≠ "global_pool" ∧ s ≠ "softmax_input" ∧ s ≠ "logreg" := by
  decide

/-- C2: for every `last_layer` that is a key of the `JFnet.build_model`
dictionary, `BCNN.__init__` removes exactly the entries after `last_layer`
(`last_layer` becomes the last original key), then appends `'global_pool'`,
`'softmax_input'` and `'logreg'` in that order, making `'logreg'` the final
output layer. -/
theorem bcnn_truncates_and_reheads (p : ℚ) (w : Option String) (nc : ℕ)
    (k : String)
    (hk : k ∈ keys (build_model 512 512 (some ORIGINAL_WEIGHTS) 5
      Option.none p)) :
    ∃ pre post net',
      build_model 512 512 (some ORIGINAL_WEIGHTS) 5 Option.none p =
        pre ++ post ∧
      (keys pre).getLast? = some k ∧
      (∀ e ∈ post, e.1 ≠ k) ∧
      BCNN_init p k w nc = .ok net' ∧
      net' = pre ++
        [("global_pool",
           .concat [.globalPool .mean k, .globalPool .max k] 1),
         ("softmax_input",
           .dense (.key "global_pool") nc .none .defaultInit Option.none),
         ("logreg", .nonlinearity (.key "softmax_input") .softmax)] ∧
      (keys net').getLast? = some "logreg" := by
  obtain ⟨pre', kv, post, hsplit, hkv, hpost⟩ := mem_split_last _ _ hk
  have htr := truncateLoop_eq pre' kv post k hkv hpost
  have hpremem : ∀ s ∈ keys (pre' ++ [kv]), s ∈ jfnetKeys := by
    intro s hs
    rw [← keys_build_model 512 512 (some ORIGINAL_WEIGHTS) 5 Option.none p,
      hsplit]
    rw [show keys ((pre' ++ [kv]) ++ post) =
      keys (pre' ++ [kv]) ++ keys post from List.map_append _ _ _]
    exact List.mem_append_left _ hs
  have hgp : "global_pool" ∉ keys (pre' ++ [kv]) :=
    fun hmem => ((jfnet_keys_fresh _ (hpremem _ hmem)).1 rfl)
  have hsi : "softmax_input" ∉ keys ((pre' ++ [kv]) ++
      [("global_pool",
        (.concat [.globalPool .mean k, .globalPool .max k] 1 : Layer))]) := by
    intro hmem
    rw [show keys ((pre' ++ [kv]) ++ [("global_pool",
        (.concat [.globalPool .mean k, .globalPool .max k] 1 : Layer))]) =
      keys (pre' ++ [kv]) ++ ["global_pool"] from List.map_append _ _ _] at hmem
    rcases List.mem_append.mp hmem with h1 | h2
    · exact ((jfnet_keys_fresh _ (hpremem _ h1)).2.1 rfl)
    · simp at h2
  have hlr : "logreg" ∉ keys (((pre' ++ [kv]) ++
      [("global_pool",
        (.concat [.globalPool .mean k, .globalPool .max k] 1 : Layer))]) ++
      [("softmax_input",
        (.dense (.key "global_pool") nc .none .defaultInit
          Option.none : Layer))]) := by
    intro hmem
    rw [show keys ((((pre' ++ [kv]) ++ [("global_pool",
        (.concat [.globalPool .mean k, .globalPool .max k] 1 : Layer))])) ++
        [("softmax_input",
          (.dense (.key "global_pool") nc .none .defaultInit
            Option.none : Layer))]) =
      (keys (pre' ++ [kv]) ++ ["global_pool"]) ++ ["softmax_input"] from by
        simp [keys]] at hmem
    rcases List.mem_append.mp hmem with h1 | h2
    · rcases List.mem_append.mp h1 with h3 | h4
      · exact ((jfnet_keys_fresh _ (hpremem _ h3)).2.2 rfl)
      · simp at h4
    · simp at h2
  refine ⟨pre' ++ [kv], post, _, hsplit, ?_, hpost, ?_, rfl, ?_⟩
  · rw [show keys (pre' ++ [kv]) = keys pre' ++ [kv.1] from
      List.map_append _ _ _]
    rw [List.getLast?_concat, hkv]
  · show BCNN_init p k w nc = _
    unfold BCNN_init
    simp only [hsplit, htr]
    rw [odSet_append _ _ _ hgp, odSet_append _ _ _ hsi, odSet_append _ _ _ hlr]
    simp [List.append_assoc]
  · rw [show keys ((pre' ++ [kv]) ++
      [("global_pool",
         (.concat [.globalPool .mean k, .globalPool .max k] 1 : Layer)),
       ("softmax_input",
         (.dense (.key "global_pool") nc .none .defaultInit
           Option.none : Layer)),
       ("logreg",
         (.nonlinearity (.key "softmax_input") .softmax : Layer))]) =
      keys (pre' ++ [kv]) ++
        ["global_pool", "softmax_input", "logreg"] from List.map_append _ _ _]
    rw [show (["global_pool", "softmax_input", "logreg"] : List String) =
      ["global_pool", "softmax_input"] ++ ["logreg"] from rfl,
      ← List.append_assoc, List.getLast?_concat]

theorem bcnn_truncates_and_reheads_witness :
    ∃ pre post net',
      build_model 512 512 (some ORIGINAL_WEIGHTS) 5 Option.none (1/5) =
        pre ++ post ∧
      (keys pre).getLast? = some "13" ∧
      (∀ e ∈ post, e.1 ≠ "13") ∧
      BCNN_init (1/5) "13" Option.none 2 = .ok net' ∧
      net' = pre ++
        [("global_pool",
           .concat [.globalPool .mean "13", .globalPool .max "13"] 1),
         ("softmax_input",
           .dense (.key "global_pool") 2 .none .defaultInit Option.none),
         ("logreg", .nonlinearity (.key "softmax_input") .softmax)] ∧
      (keys net').getLast? = some "logreg" :=
  bcnn_truncates_and_reheads (1/5) Option.none 2 "13" (by decide)

/-- C8: `weights2pickle` fails the first assertion for every name other than
`'bcnn1'`/`'bcnn2'`, fails the second assertion for every `output_layer`
that is not a key of the constructed `BCNN(p_conv=0.2, last_layer='17')`,
and for valid arguments truncates the network so that its last key equals
`output_layer` and pickles the model to
`'<name>_<hash>_<output_layer>.pkl'`. -/
theorem weights2pickle_spec :
    (∀ name ol : String, ¬ name = "bcnn1" → ¬ name = "bcnn2" →
      weights2pickle name ol = .error .assertionError) ∧
    (∀ name ol : String, (name = "bcnn1" ∨ name = "bcnn2") →
      ol ∉ bcnn17Keys →
      weights2pickle name ol = .error .assertionError) ∧
    (∀ ol : String, ol ∈ bcnn17Keys → ∃ net,
      weights2pickle "bcnn1" ol =
        .ok ("bcnn1_392bea6_" ++ ol ++ ".pkl", net) ∧
      (keys net).getLast? = some ol) ∧
    (∀ ol : String, ol ∈ bcnn17Keys → ∃ net,
      weights2pickle "bcnn2" ol =
        .ok ("bcnn2_b69aadd_" ++ ol ++ ".pkl", net) ∧
      (keys net).getLast? = some ol) := by
  refine ⟨?_, ?_, ?_, ?_⟩
  · intro name ol h1 h2
    unfold weights2pickle
    rw [if_neg]
    rintro (h | h)
    · exact h1 h
    · exact h2 h
  · intro name ol hname hol
    unfold weights2pickle
    rw [if_pos hname]
    simp only [bcnn17_ok]
    rw [if_neg]
    intro hmem
    exact hol (bcnn17_keys ▸ hmem)
  · intro ol hol
    have hmem : ol ∈ keys bcnn17Net := by rw [bcnn17_keys]; exact hol
    obtain ⟨net', htr⟩ := (truncateLoop_ok_iff bcnn17Net ol).mpr hmem
    refine ⟨net', ?_, truncateLoop_ok_last _ _ _ htr⟩
    unfold weights2pickle
    rw [if_pos (Or.inl rfl)]
    simp only [bcnn17_ok]
    rw [if_pos hmem]
    simp only [htr]
    simp
  · intro ol hol
    have hmem : ol ∈ keys bcnn17Net := by rw [bcnn17_keys]; exact hol
    obtain ⟨net', htr⟩ := (truncateLoop_ok_iff bcnn17Net ol).mpr hmem
    refine ⟨net', ?_, truncateLoop_ok_last _ _ _ htr⟩
    unfold weights2pickle
    rw [if_pos (Or.inr rfl)]
    simp only [bcnn17_ok]
    rw [if_pos hmem]
    simp only [htr]
    simp

theorem weights2pickle_spec_witness :
    weights2pickle "bcnn" "logreg" = .error .assertionError ∧
    weights2pickle "bcnn1" "31" = .error .assertionError ∧
    (∃ net, weights2pickle "bcnn1" "global_pool" =
        .ok ("bcnn1_392bea6_global_pool.pkl", net) ∧
      (keys net).getLast? = some "global_pool") ∧
    (∃ net, weights2pickle "bcnn2" "17" =
        .ok ("bcnn2_b69aadd_17.pkl", net) ∧
      (keys net).getLast? = some "17") :=
  ⟨weights2pickle_spec.1 "bcnn" "logreg" (by decide) (by decide),
   weights2pickle_spec.2.1 "bcnn1" "31" (Or.inl rfl) (by decide),
   weights2pickle_spec.2.2.1 "global_pool" (by decide),
   weights2pickle_spec.2.2.2 "17" (by decide)⟩

theorem map_getD_range (l : List Arr) :
    (List.range l.length).map (fun i => l.getD i []) = l := by
  induction l with
  | nil => rfl
  | cons a t ih =>
      rw [List.length_cons, List.range_succ_eq_map, List.map_cons,
        List.map_map]
      rw [show ((fun i => (a :: t).getD i []) ∘ Nat.succ) =
        (fun i => t.getD i []) from funext (fun i => List.getD_cons_succ)]
      rw [List.getD_cons_zero, ih]

/-- C3: saving a layer's weights to an `.npz` file and loading that same
file back on the same layer restores exactly the parameter values that were
saved: `save_weights` followed by `load_weights` is the identity on the
network's list of parameter arrays. -/
theorem save_load_roundtrip (params : List Arr) (fs : FileSys) (fn : String)
    (h : endsWith fn ".npz" = true) :
    ∃ c, save_weights params fn = .ok (fn, c) ∧
      load_weights params.length ((fn, c) :: fs) fn = .ok params := by
  refine ⟨.npz params, ?_, ?_⟩
  · unfold save_weights
    rw [if_pos h]
  · unfold load_weights
    rw [if_pos h]
    rw [show List.lookup fn ((fn, FileContent.npz params) :: fs) =
      some (FileContent.npz params) from by simp [List.lookup]]
    dsimp only
    rw [map_getD_range]
    unfold set_all_param_values
    rw [if_pos rfl]

theorem save_load_roundtrip_witness :
    ∃ c, save_weights [[1, 2], [3]] "weights.npz" = .ok ("weights.npz", c) ∧
      load_weights 2 [("weights.npz", c)] "weights.npz" =
        .ok [[1, 2], [3]] :=
  save_load_roundtrip [[1, 2], [3]] [] "weights.npz" (by decide)

/-- C4 (counterexample to the claim as stated): `save_weights` to a filename
ending in `'.pkl'` raises `NotImplementedError` — only `.npz` is
implemented for saving. -/
theorem save_weights_pkl_counterexample :
    endsWith "weights.pkl" ".pkl" = true ∧
    save_weights [[1]] "weights.pkl" = .error .notImplementedError := by
  exact ⟨by decide, by decide⟩

/-- C4 (amended): `save_weights` writes the layer's parameter values without
raising exactly for filenames ending in `'.npz'`; for every other filename —
including those ending in `'.pkl'` — it raises `NotImplementedError`. -/
theorem save_weights_npz_only (params : List Arr) (fn : String) :
    (endsWith fn ".npz" = true →
      save_weights params fn = .ok (fn, .npz params)) ∧
    (endsWith fn ".npz" = false →
      save_weights params fn = .error .notImplementedError) := by
  constructor
  · intro h
    unfold save_weights
    rw [if_pos h]
  · intro h
    unfold save_weights
    rw [if_neg (by simp [h])]

theorem save_weights_npz_only_witness :
    save_weights [[1], [2]] "w.npz" = .ok ("w.npz", .npz [[1], [2]]) ∧
    save_weights [[1], [2]] "w.pkl" = .error .notImplementedError :=
  ⟨(save_weights_npz_only [[1], [2]] "w.npz").1 (by decide),
   (save_weights_npz_only [[1], [2]] "w.pkl").2 (by decide)⟩

/-- C5: `load_weights` raises `NotImplementedError` if and only if the
filename ends with neither `'.npz'` nor `'.pkl'`; for an `.npz` filename it
reads the archive's arrays `arr_0 … arr_{n-1}` in index order and sets all
parameter values of the given layer, and for a `.pkl` filename it sets them
from the pickled dictionary's `'param values'` entry. -/
theorem load_weights_spec :
    (∀ (nP : ℕ) (fs : FileSys) (fn : String),
      load_weights nP fs fn = .error .notImplementedError ↔
        (endsWith fn ".npz" = false ∧ endsWith fn ".pkl" = false)) ∧
    (∀ (nP : ℕ) (fs : FileSys) (fn : String) (arrs : List Arr),
      endsWith fn ".npz" = true → fs.lookup fn = some (.npz arrs) →
      arrs.length = nP → load_weights nP fs fn = .ok arrs) ∧
    (∀ (nP : ℕ) (fs : FileSys) (fn : String)
      (entries : List (String × List Arr)) (pv : List Arr),
      endsWith fn ".npz" = false → endsWith fn ".pkl" = true →
      fs.lookup fn = some (.pkl entries) →
      entries.lookup "param values" = some pv → pv.length = nP →
      load_weights nP fs fn = .ok pv) := by
  refine ⟨?_, ?_, ?_⟩
  · intro nP fs fn
    unfold load_weights
    by_cases h1 : endsWith fn ".npz" = true
    · rw [if_pos h1]
      constructor
      · intro hcontra
        exfalso
        rcases hl : fs.lookup fn with _ | c
        · rw [hl] at hcontra
          simp at hcontra
        · rcases c with arrs | entries
          · rw [hl] at hcontra
            dsimp only at hcontra
            unfold set_all_param_values at hcontra
            rw [map_getD_range] at hcontra
            by_cases hlen : arrs.length = nP
            · rw [if_pos hlen] at hcontra
              simp at hcontra
            · rw [if_neg hlen] at hcontra
              simp at hcontra
          · rw [hl] at hcontra
            simp at hcontra
      · rintro ⟨ha, _⟩
        rw [h1] at ha
        cases ha
    · have h1' : endsWith fn ".npz" = false := by
        cases hx : endsWith fn ".npz"
        · rfl
        · exact absurd hx h1
      rw [if_neg h1]
      by_cases h2 : endsWith fn ".pkl" = true
      · rw [if_pos h2]
        constructor
        · intro hcontra
          exfalso
          rcases hl : fs.lookup fn with _ | c
          · rw [hl] at hcontra
            simp at hcontra
          · rcases c with arrs | entries
            · rw [hl] at hcontra
              simp at hcontra
            · rw [hl] at hcontra
              dsimp only at hcontra
              rcases hpv : entries.lookup "param values" with _ | pv
              · rw [hpv] at hcontra
                simp at hcontra
              · rw [hpv] at hcontra
                unfold set_all_param_values at hcontra
                dsimp only at hcontra
                by_cases hlen : pv.length = nP
                · rw [if_pos hlen] at hcontra
                  simp at hcontra
                · rw [if_neg hlen] at hcontra
                  simp at hcontra
        · rintro ⟨_, hb⟩
          rw [h2] at hb
          cases hb
      · have h2' : endsWith fn ".pkl" = false := by
          cases hx : endsWith fn ".pkl"
          · rfl
          · exact absurd hx h2
        rw [if_neg h2]
        simp [h1', h2']
  · intro nP fs fn arrs h1 hlk hlen
    unfold load_weights
    rw [if_pos h1, hlk]
    dsimp only
    rw [map_getD_range]
    unfold set_all_param_values
    rw [if_pos hlen]
  · intro nP fs fn entries pv h1 h2 hlk hpv hlen
    unfold load_weights
    rw [if_neg (by simp [h1]), if_pos h2, hlk]
    dsimp only
    rw [hpv]
    unfold set_all_param_values
    dsimp only
    rw [if_pos hlen]

theorem load_weights_spec_witness :
    load_weights 0 [] "weights.txt" = .error .notImplementedError ∧
    load_weights 2 [("a.npz", .npz [[1], [2]])] "a.npz" = .ok [[1], [2]] ∧
    load_weights 1 [("b.pkl", .pkl [("param values", [[3]])])] "b.pkl" =
      .ok [[3]] :=
  ⟨(load_weights_spec.1 0 [] "weights.txt").mpr (by decide),
   load_weights_spec.2.1 2 [("a.npz", .npz [[1], [2]])] "a.npz" [[1], [2]]
     (by decide) rfl rfl,
   load_weights_spec.2.2 1 [("b.pkl", .pkl [("param values", [[3]])])]
     "b.pkl" [("param values", [[3]])] [[3]] (by decide) (by decide) rfl rfl
     rfl⟩

theorem zip_getD {α β γ : Type} (f : α → β → γ) :
    ∀ (as : List α) (bs : List β) (i : ℕ), i < as.length → i < bs.length →
      ∀ (da : α) (db : β) (dc : γ),
        (List.zipWith f as bs).getD i dc = f (as.getD i da) (bs.getD i db)
  | [], _, i, h, _, _, _, _ => absurd h (by simp)
  | _ :: _, [], i, _, h, _, _, _ => absurd h (by simp)
  | a :: as, b :: bs, 0, _, _, da, db, dc => by
      simp [List.getD_cons_zero]
  | a :: as, b :: bs, i + 1, h1, h2, da, db, dc => by
      simp only [List.zipWith_cons_cons, List.getD_cons_succ]
      exact zip_getD f as bs i (by simpa using h1) (by simpa using h2) da db dc

theorem rep_getD {α : Type} (x d : α) :
    ∀ (n i : ℕ), i < n → (List.replicate n x).getD i d = x
  | n + 1, 0, _ => by simp [List.replicate, List.getD_cons_zero]
  | n + 1, i + 1, h => by
      simp only [List.replicate, List.getD_cons_succ]
      exact rep_getD x d n i (Nat.lt_of_succ_lt_succ h)

theorem set_getD_self {α : Type} (x d : α) :
    ∀ (l : List α) (t : ℕ), t < l.length → (l.set t x).getD t d = x
  | a :: l, 0, _ => by simp [List.getD_cons_zero]
  | a :: l, t + 1, h => by
      simp only [List.set, List.getD_cons_succ]
      exact set_getD_self x d l t (Nat.lt_of_succ_lt_succ h)

theorem set_getD_ne {α : Type} (x d : α) :
    ∀ (l : List α) (t t' : ℕ), t ≠ t' →
      (l.set t x).getD t' d = l.getD t' d
  | [], t, t', _ => by simp
  | a :: l, 0, 0, h => absurd rfl h
  | a :: l, 0, t' + 1, _ => by simp [List.getD_cons_succ]
  | a :: l, t + 1, 0, _ => by simp [List.getD_cons_zero]
  | a :: l, t + 1, t' + 1, h => by
      simp only [List.set, List.getD_cons_succ]
      exact set_getD_ne x d l t t' (fun hh => h (by rw [hh]))

theorem zeros3_shape (n m T : ℕ) : ShapeOK (zeros3 n m T) n m T := by
  refine ⟨by simp [zeros3], ?_, ?_⟩
  · intro i hi
    rw [zeros3, rep_getD _ _ n i hi]
    simp
  · intro i j hi hj
    rw [zeros3, rep_getD _ _ n i hi, rep_getD _ _ m j hj]
    simp

theorem setSlice_shape (a : Mat3) (v : Mat) (n m T t : ℕ)
    (ha : ShapeOK a n m T) (hv : MatShape v n m) :
    ShapeOK (setSlice a v t) n m T := by
  obtain ⟨haL, haR, haC⟩ := ha
  obtain ⟨hvL, hvR⟩ := hv
  refine ⟨?_, ?_, ?_⟩
  · rw [setSlice, List.length_zipWith, haL, hvL, min_self]
  · intro i hi
    rw [setSlice,
      zip_getD _ a v i (haL ▸ hi) (hvL ▸ hi) [] [] [],
      List.length_zipWith, haR i hi, hvR i hi, min_self]
  · intro i j hi hj
    rw [setSlice,
      zip_getD _ a v i (haL ▸ hi) (hvL ▸ hi) [] [] [],
      zip_getD _ (a.getD i []) (v.getD i []) j
        (by rw [haR i hi]; exact hj) (by rw [hvR i hi]; exact hj) [] 0 [],
      List.length_set]
    exact haC i j hi hj

theorem setSlice_getD (a : Mat3) (v : Mat) (n m T t : ℕ)
    (ha : ShapeOK a n m T) (hv : MatShape v n m) (i j : ℕ)
    (hi : i < n) (hj : j < m) (htT : t < T) (t' : ℕ) :
    (((setSlice a v t).getD i []).getD j []).getD t' 0 =
      if t' = t then (v.getD i []).getD j 0
      else ((a.getD i []).getD j []).getD t' 0 := by
  obtain ⟨haL, haR, haC⟩ := ha
  obtain ⟨hvL, hvR⟩ := hv
  rw [setSlice,
    zip_getD _ a v i (haL ▸ hi) (hvL ▸ hi) [] [] [],
    zip_getD _ (a.getD i []) (v.getD i []) j
      (by rw [haR i hi]; exact hj) (by rw [hvR i hi]; exact hj) [] 0 []]
  by_cases ht' : t' = t
  · subst ht'
    rw [if_pos rfl,
      set_getD_self _ _ _ _ (by rw [haC i j hi hj]; exact htT)]
  · rw [if_neg ht', set_getD_ne _ _ _ _ _ (fun hh => ht' hh.symm)]

theorem runLoop_filled (f : ℕ → Mat) (n m Tv : ℕ)
    (hf : ∀ t, t < Tv → MatShape (f t) n m) :
    ∀ (k : ℕ), k ≤ Tv → ∀ (a : Mat3), ShapeOK a n m Tv →
      ShapeOK ((List.range k).foldl (fun acc t => setSlice acc (f t) t) a)
        n m Tv ∧
      (∀ i j t, i < n → j < m → t < Tv →
        ((((List.range k).foldl (fun acc t => setSlice acc (f t) t)
            a).getD i []).getD j []).getD t 0 =
          if t < k then ((f t).getD i []).getD j 0
          else ((a.getD i []).getD j []).getD t 0) := by
  intro k
  induction k with
  | zero =>
      intro _ a ha
      refine ⟨by simpa using ha, ?_⟩
      intro i j t _ _ _
      simp
  | succ k ih =>
      intro hk a ha
      have hkT : k < Tv := hk
      obtain ⟨ihS, ihE⟩ := ih (Nat.le_of_succ_le hk) a ha
      rw [List.range_succ, List.foldl_append]
      simp only [List.foldl_cons, List.foldl_nil]
      refine ⟨setSlice_shape _ _ _ _ _ _ ihS (hf k hkT), ?_⟩
      intro i j t hi hj ht
      rw [setSlice_getD _ _ n m Tv k ihS (hf k hkT) i j hi hj hkT t]
      by_cases htk : t = k
      · subst htk
        rw [if_pos rfl, if_pos (Nat.lt_succ_self t)]
      · rw [if_neg htk, ihE i j t hi hj ht]
        by_cases htk2 : t < k
        · rw [if_pos htk2, if_pos (Nat.lt_succ_of_lt htk2)]
        · rw [if_neg htk2, if_neg (fun hcon => htk (by omega))]

/-- C6: for every model with a non-empty layer dictionary and every positive
`T` (`[("T", Tv)]`; the second conjunct shows the empty kwargs default to
`T = 100`), `mc_samples` on inputs whose first element has length `n`
returns an array of shape `(n, n_out, T)` where `n_out` is the second
dimension of the final layer's output shape, and each slice `[:, :, t]` is
the result of the t-th call of the stochastic forward function compiled
with `deterministic=False`. -/
theorem mc_samples_shape_slices :
    (∀ (net : Net) (f : ℕ → Mat) (x : Mat) (xs : List Mat) (Tv n m : ℕ),
      net ≠ [] → outputDim1 net = some m → 0 < Tv → x.length = n →
      (∀ t, t < Tv → MatShape (f t) n m) →
      ∃ a, mc_samples net f (x :: xs) [("T", Tv)] = .ok a ∧
        ShapeOK a n m Tv ∧
        ∀ i j t, i < n → j < m → t < Tv →
          ((a.getD i []).getD j []).getD t 0 =
            ((f t).getD i []).getD j 0) ∧
    (∀ (net : Net) (f : ℕ → Mat) (inputs : List Mat),
      mc_samples net f inputs [] = mc_samples net f inputs [("T", 100)]) := by
  constructor
  · intro net f x xs Tv n m hnet hdim hT hx hf
    have hsome : ∃ kv, net.getLast? = some kv := by
      cases hlast : net.getLast? with
      | some kv => exact ⟨kv, rfl⟩
      | none => exact absurd (List.getLast?_eq_none_iff.mp hlast) hnet
    obtain ⟨kv, hlast⟩ := hsome
    refine ⟨runLoop f (zeros3 n m Tv) Tv, ?_, ?_, ?_⟩
    · unfold mc_samples
      rw [show (([("T", Tv)] : List (String × ℕ)).filter
        (fun kv => ¬ kv.1 = "T")) = [] from by simp]
      dsimp only
      rw [hlast]
      dsimp only
      rw [hdim]
      dsimp only
      rw [hx]
      rw [show (List.lookup "T" [("T", Tv)]).getD 100 = Tv from by
        simp [List.lookup]]
      rfl
    · exact (runLoop_filled f n m Tv hf Tv (le_refl Tv)
        (zeros3 n m Tv) (zeros3_shape n m Tv)).1
    · intro i j t hi hj ht
      rw [runLoop,
        (runLoop_filled f n m Tv hf Tv (le_refl Tv)
          (zeros3 n m Tv) (zeros3_shape n m Tv)).2 i j t hi hj ht,
        if_pos ht]
  · intro net f inputs
    rfl

theorem mc_samples_shape_slices_witness :
    ∃ a, mc_samples [("in", .inputLayer Option.none [2] "x")]
        (fun _ => [[3, 4]]) [[[1, 2]]] [("T", 1)] = .ok a ∧
      ShapeOK a 1 2 1 ∧
      ∀ i j t, i < 1 → j < 2 → t < 1 →
        ((a.getD i []).getD j []).getD t 0 =
          (([[3, 4]] : Mat).getD i []).getD j 0 :=
  mc_samples_shape_slices.1 [("in", .inputLayer Option.none [2] "x")]
    (fun _ => [[3, 4]]) [[1, 2]] [] 1 1 2 (by decide) rfl (by decide) rfl
    (fun _ _ => (by unfold MatShape; exact ⟨rfl, by decide⟩ :
      MatShape ([[3, 4]] : Mat) 1 2))

/-- C10: `Model.mc_samples` raises `TypeError` if and only if it is called
with a keyword argument other than `'T'`. -/
theorem mc_samples_typeerror_iff (net : Net) (f : ℕ → Mat)
    (inputs : List Mat) (kwargs : List (String × ℕ)) :
    mc_samples net f inputs kwargs = .error .typeError ↔
      ∃ kv ∈ kwargs, kv.1 ≠ "T" := by
  unfold mc_samples
  by_cases hrest : (kwargs.filter (fun kv => ¬ kv.1 = "T")).isEmpty = true
  · rw [if_pos hrest]
    constructor
    · intro hcontra
      exfalso
      rcases hlast : net.getLast? with _ | kv
      · rw [hlast] at hcontra
        simp at hcontra
      · rw [hlast] at hcontra
        rcases inputs with _ | ⟨x, xs⟩
        · simp at hcontra
        · rcases hdim : outputDim1 net with _ | d
          · rw [hdim] at hcontra
            simp at hcontra
          · rw [hdim] at hcontra
            simp at hcontra
    · rintro ⟨kv, hmem, hne⟩
      exfalso
      have := (List.filter_eq_nil_iff.mp (List.isEmpty_iff.mp hrest)) kv hmem
      simp only [decide_not, Bool.not_eq_true', decide_eq_false_iff_not,
        Decidable.not_not] at this
      exact hne this
  · rw [if_neg hrest]
    constructor
    · intro _
      have hne : kwargs.filter (fun kv => ¬ kv.1 = "T") ≠ [] := by
        intro hnil
        exact hrest (List.isEmpty_iff.mpr hnil)
      rcases hex : kwargs.filter (fun kv => ¬ kv.1 = "T") with _ | ⟨kv, rest⟩
      · exact absurd hex hne
      · have hmem : kv ∈ kwargs.filter (fun kv => ¬ kv.1 = "T") := by
          rw [hex]; exact List.mem_cons_self _ _
        have hp := List.of_mem_filter hmem
        refine ⟨kv, List.mem_of_mem_filter hmem, ?_⟩
        simpa using hp
    · intro _
      rfl

theorem mc_samples_typeerror_iff_witness :
    mc_samples [] (fun _ => []) [] [("S", 1)] = .error .typeError :=
  (mc_samples_typeerror_iff [] (fun _ => []) [] [("S", 1)]).mpr
    ⟨("S", 1), List.mem_cons_self _ _, by decide⟩

end DiseaseDetect
